import Mathlib

/-!
Verification development for the Gopher crawler/indexer client (src/client.c).

The embedding models the client's pure core over `List Char` byte strings:
the item registry (`add_item`), the menu line splitter (`find_next_line`,
modelled by `splitCRLF`), the field extractor (`extract_pathname`), the
per-line indexer (`index_line`), the crawl driver of `main`, the size-drain
loop of `evaluate_file_size`, the analysis loop of `evaluate`, and the
external-server prober (`test_external_servers`).  Network effects are
modelled by oracles: a `server` function from selector to response bytes, a
`meter` function from selector to metering outcome, a `resolve` function for
DNS and a `connect_ok` function for TCP connectivity.  Paths on which the C
program performs undefined behavior (a NULL or out-of-bounds dereference)
are modelled as `none`.
-/

namespace Gopher

/-- FILE_LIMIT from client.c: size limit for downloading files. -/
def FILE_LIMIT : Nat := 65536

/-- BUFFER_SIZE from client.c: string buffer size for recv. -/
def BUFFER_SIZE : Nat := 4096

/-- The item-type codes DIRECTORY, TEXT, BINARY, ERROR, EXTERNAL, TIMEOUT,
TOO_LARGE of client.c. -/
inductive ItemType where
  | directory
  | text
  | binary
  | error
  | external
  | timeout
  | tooLarge
deriving DecidableEq

/-- A linked-list entry of client.c: an item type together with its record
string (pathname, request line or external host/port). -/
structure Item where
  kind : ItemType
  record : List Char
deriving DecidableEq

/-- gopher_connect appends CRLF to the selector to form the request line
(new_request in client.c); the handler functions receive this request line,
not the bare selector. -/
def requestLine (sel : List Char) : List Char := sel ++ ['\r', '\n']

/-- add_item of client.c: if the list is empty the new item becomes the
initial item; otherwise the list is scanned for an entry with the same
item_type and record, in which case the new item is discarded, and otherwise
the new item is appended at the tail. -/
def add_item (reg : List Item) (newItem : Item) : List Item :=
  match reg with
  | [] => [newItem]
  | _ =>
    if reg.any (fun c => decide (c.kind = newItem.kind ∧ c.record = newItem.record)) then
      reg
    else
      reg ++ [newItem]

/-- is_binary_file of client.c: the type characters classified as binary. -/
def is_binary_file (c : Char) : Bool :=
  c = '9' || c = '4' || c = '5' || c = '6'
    || c = 'g' || c = 'I' || c = ':' || c = ';'
    || c = '<' || c = 'd' || c = 'h' || c = 'p'
    || c = 'r' || c = 's' || c = 'P' || c = 'X'

/-- The line-splitting loop of indexing/find_next_line on a whole response
buffer: find_next_line terminates the current line at the first "\r\n"
(never at a bare CR or LF) and returns the remainder, or NULL at the end of
the buffer; indexing processes every segment so produced, including a final
segment not terminated by CRLF.  An empty buffer yields one empty line, as
the indexing loop body runs at least once. -/
def splitCRLF : List Char → List (List Char)
  | [] => [[]]
  | [c] => [[c]]
  | c1 :: c2 :: rest =>
    if c1 = '\r' ∧ c2 = '\n' then
      [] :: (if rest = [] then [] else splitCRLF rest)
    else
      match splitCRLF (c2 :: rest) with
      | [] => [[c1]]
      | l :: ls => (c1 :: l) :: ls

/-- The first loop of extract_pathname: the remainder of the line after the
first tab character, or `none` when the line has no tab (the C function
leaves `start` as NULL in that case). -/
def afterFirstTab : List Char → Option (List Char)
  | [] => none
  | c :: rest => if c = '\t' then some rest else afterFirstTab rest

/-- The second loop of extract_pathname: split at the first tab, CR or LF,
replacing it by a terminator.  The first component is the extracted
pathname; the second is what the pointer `pathname + 1` reaches past the
written terminator, and is `none` when no terminator was found (in C the
pointer would then run past the line's own terminator into adjacent
memory). -/
def untilTerminator : List Char → List Char × Option (List Char)
  | [] => ([], none)
  | c :: rest =>
    if c = '\t' ∨ c = '\r' ∨ c = '\n' then ([], some rest)
    else
      let pr := untilTerminator rest
      (c :: pr.1, pr.2)

/-- extract_pathname of client.c.  `none` models the line-without-tab case:
the C function then dereferences the NULL `start` pointer in its second
loop, which is undefined behavior. -/
def extract_pathname (line : List Char) : Option (List Char × Option (List Char)) :=
  match afterFirstTab line with
  | none => none
  | some start => some (untilTerminator start)

/-- index_line of client.c: classify the line by its first character and
produce the entries passed to add_item.  `request` is the request line the
enclosing indexing call received (the selector with CRLF appended).  A type
'3' line yields an ERROR entry recording that request line.  The result is
`none` on the undefined-behavior paths: a classified line with no tab
(extract_pathname dereferences NULL), and an external reference whose record
pointer would run out of bounds. -/
def index_line (line : List Char) (request : List Char) : Option (List Item) :=
  match line with
  | [] => some []
  | t :: _ =>
    if t = '3' then some [⟨ItemType.error, request⟩]
    else if t = '1' ∨ t = '0' ∨ is_binary_file t then
      let kind :=
        if t = '1' then ItemType.directory
        else if t = '0' then ItemType.text
        else ItemType.binary
      match extract_pathname line with
      | none => none
      | some (pathname, rest) =>
        if pathname.head? = some '/' then some [⟨kind, pathname⟩]
        else if kind = ItemType.directory ∧ pathname = [] then
          match rest with
          | none => none
          | some r => some [⟨ItemType.external, r⟩]
        else some []
    else some []

/-- The per-line add loop of indexing: each line's entries are handed to
add_item in order.  `none` propagates an undefined-behavior path of
index_line. -/
def index_lines (request : List Char) (reg : List Item) : List (List Char) → Option (List Item)
  | [] => some reg
  | l :: ls =>
    match index_line l request with
    | none => none
    | some items => index_lines request (items.foldl add_item reg) ls

/-- indexing of client.c on a complete response held in one buffer: split
the response at CRLF boundaries and index every line.  An empty response
(recv returning 0) indexes nothing, which coincides with indexing the empty
buffer.  The initial-recv timeout path (which records a TIMEOUT entry) is
not part of this model: the `server` oracle always responds. -/
def indexing (response request : List Char) (reg : List Item) : Option (List Item) :=
  index_lines request reg (splitCRLF response)

/-- Outcome of the crawl of main: the final registry, or a crash on an
undefined-behavior parse path. -/
inductive CrawlResult where
  | done (reg : List Item)
  | crashed
deriving DecidableEq

/-- The subdirectory loop of main: walk the live registry from the head;
for each DIRECTORY entry open a session, send its record as the selector
and index the response, which may append further entries that the same walk
then reaches.  The walk position is the index `i` into the registry, whose
prefix is never mutated; `fuel` bounds the number of iterations and `none`
means it was exhausted. -/
def crawl_loop (server : List Char → List Char) : Nat → List Item → Nat → Option CrawlResult
  | 0, _, _ => none
  | fuel + 1, reg, i =>
    if h : i < reg.length then
      let c := reg.get ⟨i, h⟩
      if c.kind = ItemType.directory then
        match indexing (server c.record) (requestLine c.record) reg with
        | none => some CrawlResult.crashed
        | some reg2 => crawl_loop server fuel reg2 (i + 1)
      else crawl_loop server fuel reg (i + 1)
    else some (CrawlResult.done reg)

/-- The indexing phase of main: index the root directory (empty selector),
then run the subdirectory loop over the registry. -/
def crawl (server : List Char → List Char) (fuel : Nat) : Option CrawlResult :=
  match indexing (server []) (requestLine []) [] with
  | none => some CrawlResult.crashed
  | some reg0 => crawl_loop server fuel reg0 0

/-- The drain loop of evaluate_file_size: starting from a running total and
the chunk just received, add the chunk and return -1 as soon as the total
reaches FILE_LIMIT, otherwise keep receiving.  The select-deadline and
recv-failure paths (returning -2) are modelled by the meter oracle of the
analysis loop, not here: the chunk list is the successful recv sequence. -/
def size_drain (size chunk : Nat) (rest : List Nat) : Int :=
  let s := size + chunk
  if FILE_LIMIT ≤ s then -1
  else
    match rest with
    | [] => (s : Int)
    | c :: r => size_drain s c r

/-- evaluate_file_size of client.c on the sequence of positive byte counts
the successive recv calls return: 0 for no response at all, otherwise the
drain loop's result (the total size, or -1 when it reaches FILE_LIMIT). -/
def evaluate_file_size : List Nat → Int
  | [] => 0
  | c :: rest => size_drain 0 c rest

/-- What a gopher_connect(evaluate_file_size, record) call can produce for
the analysis loop: a measured size (a return value in [0, FILE_LIMIT)), the
too-large sentinel -1, the timeout path (which also records a TIMEOUT entry
from inside the handler, keyed by the request line), or a non-timeout recv
failure (returns -2 with no entry). -/
inductive MeterOutcome where
  | size (n : Nat)
  | tooLarge
  | timedOut
  | recvFailed
deriving DecidableEq

/-- The counters and extrema local to evaluate of client.c, with -1 as the
"undefined" sentinel the source uses. -/
structure EvalStats where
  num_of_directories : Nat
  num_of_text_files : Nat
  num_of_binary_files : Nat
  num_of_invalid_references : Nat
  smallest_text_file : Option (List Char)
  size_of_smallest_text_file : Int
  size_of_largest_text_file : Int
  size_of_smallest_binary_file : Int
  size_of_largest_binary_file : Int
deriving DecidableEq

/-- The initial values of evaluate's locals. -/
def initStats : EvalStats :=
  ⟨0, 0, 0, 0, none, -1, -1, -1, -1⟩

/-- One iteration of the switch in evaluate's first walk, for the entry `c`:
the updated stats and the (possibly extended) registry.  TEXT and BINARY
entries are counted first and then metered; a -1 meter result appends a
TOO_LARGE entry recording the selector, and the timeout path appends a
TIMEOUT entry recording the request line (created inside the handler from
new_request).  The largest-text update mirrors the source's comparison of
the new size against size_of_largest_binary_file (client.c line 558). -/
def eval_step (meter : List Char → MeterOutcome) (reg : List Item) (c : Item)
    (st : EvalStats) : EvalStats × List Item :=
  match c.kind with
  | ItemType.directory =>
    ({st with num_of_directories := st.num_of_directories + 1}, reg)
  | ItemType.text =>
    let st := {st with num_of_text_files := st.num_of_text_files + 1}
    (match meter c.record with
     | MeterOutcome.tooLarge => (st, add_item reg ⟨ItemType.tooLarge, c.record⟩)
     | MeterOutcome.timedOut => (st, add_item reg ⟨ItemType.timeout, requestLine c.record⟩)
     | MeterOutcome.recvFailed => (st, reg)
     | MeterOutcome.size n =>
       let st :=
         if st.size_of_smallest_text_file = -1 ∨ (n : Int) < st.size_of_smallest_text_file then
           {st with size_of_smallest_text_file := (n : Int),
                    smallest_text_file := some c.record}
         else st
       let st :=
         if st.size_of_largest_text_file = -1 ∨ (n : Int) > st.size_of_largest_binary_file then
           {st with size_of_largest_text_file := (n : Int)}
         else st
       (st, reg))
  | ItemType.binary =>
    let st := {st with num_of_binary_files := st.num_of_binary_files + 1}
    (match meter c.record with
     | MeterOutcome.tooLarge => (st, add_item reg ⟨ItemType.tooLarge, c.record⟩)
     | MeterOutcome.timedOut => (st, add_item reg ⟨ItemType.timeout, requestLine c.record⟩)
     | MeterOutcome.recvFailed => (st, reg)
     | MeterOutcome.size n =>
       let st :=
         if st.size_of_smallest_binary_file = -1 ∨ (n : Int) < st.size_of_smallest_binary_file then
           {st with size_of_smallest_binary_file := (n : Int)}
         else st
       let st :=
         if st.size_of_largest_binary_file = -1 ∨ (n : Int) > st.size_of_largest_binary_file then
           {st with size_of_largest_binary_file := (n : Int)}
         else st
       (st, reg))
  | ItemType.error =>
    ({st with num_of_invalid_references := st.num_of_invalid_references + 1}, reg)
  | ItemType.external => (st, reg)
  | ItemType.timeout => (st, reg)
  | ItemType.tooLarge => (st, reg)

/-- The first walk of evaluate over the live registry: entries appended
while metering (TIMEOUT, TOO_LARGE) are reached by the same walk and match
no case of the switch.  `fuel` bounds the iterations; `none` means it was
exhausted. -/
def eval_loop (meter : List Char → MeterOutcome) :
    Nat → List Item → Nat → EvalStats → Option (EvalStats × List Item)
  | 0, _, _, _ => none
  | fuel + 1, reg, i, st =>
    if h : i < reg.length then
      let pr := eval_step meter reg (reg.get ⟨i, h⟩) st
      eval_loop meter fuel pr.2 (i + 1) pr.1
    else some (st, reg)

/-- After the first walk, evaluate unconditionally calls
gopher_connect(print_response, smallest_text_file); gopher_connect begins by
taking strlen of the request to build the request line.  When no text file
was metered, smallest_text_file is still NULL and strlen dereferences it:
the `none` case models that undefined behavior. -/
def print_smallest_request (smallest : Option (List Char)) : Option (List Char) :=
  match smallest with
  | none => none
  | some sel => some (requestLine sel)

/-- Probe outcome of test_external_servers: the printed up/down status, the
silent return for a reference equal to the primary endpoint, or the error
print for an entry that is not EXTERNAL. -/
inductive ProbeResult where
  | up
  | down
  | skippedSelf
  | notExternal
deriving DecidableEq

/-- atoi on the port token: the leading decimal digits (the inputs the
claims exercise carry plain digit strings). -/
def atoiM (s : List Char) : Int :=
  ((s.takeWhile fun c => c.isDigit).foldl (fun acc c => acc * 10 + ((c.toNat : Int) - ('0'.toNat : Int))) 0)

/-- The two strtok calls of test_external_servers on the EXTERNAL record:
the hostname is the first "\t"-delimited token; the port token is the
following "\r\n"-delimited token. -/
def strtokHostPort (record : List Char) : List Char × List Char :=
  let s1 := record.dropWhile fun c => c = '\t'
  let host := s1.takeWhile fun c => ¬(c = '\t')
  let rest1 := s1.dropWhile fun c => ¬(c = '\t')
  let rest2 := match rest1 with
    | [] => []
    | _ :: r => r
  let s2 := rest2.dropWhile fun c => c = '\r' ∨ c = '\n'
  (host, s2.takeWhile fun c => ¬(c = '\r' ∨ c = '\n'))

/-- test_external_servers of client.c.  `resolve` models gethostbyname,
`primary_addr`/`primary_port` the global endpoint of main, and `connect_ok`
whether the non-blocking connect completes within the select deadline with
SO_ERROR == 0.  The source guards the memcpy with `server != NULL` — the
GLOBAL primary-endpoint resolution, which is never NULL at this point —
instead of checking `ext_server`, so a failed resolution of the external
hostname reaches `ext_server->h_addr_list` through a NULL pointer: the
`none` result models that undefined behavior. -/
def test_external_servers (resolve : List Char → Option Nat)
    (primary_addr : Nat) (primary_port : Int)
    (connect_ok : Nat → Int → Bool) (item : Item) : Option ProbeResult :=
  if item.kind = ItemType.external then
    let hp := strtokHostPort item.record
    match resolve hp.1 with
    | none => none
    | some addr =>
      if addr = primary_addr ∧ atoiM hp.2 = primary_port then some ProbeResult.skippedSelf
      else if connect_ok addr (atoiM hp.2) then some ProbeResult.up
      else some ProbeResult.down
  else some ProbeResult.notExternal

/-- A synthetic menu entry: the (type, display, selector, host, port)
tuple of the round-trip law. -/
structure MenuTuple where
  typeChar : Char
  display : List Char
  selector : List Char
  host : List Char
  port : List Char
deriving DecidableEq

/-- Assemble one menu line: the type character immediately followed by the
display name, then the selector, host and port joined with tabs. -/
def assembleLine (t : MenuTuple) : List Char :=
  t.typeChar :: t.display ++ '\t' :: t.selector ++ '\t' :: t.host ++ '\t' :: t.port

/-- Assemble a synthetic menu: every line terminated by CRLF. -/
def assembleMenu (ts : List MenuTuple) : List Char :=
  ts.foldr (fun t acc => assembleLine t ++ '\r' :: '\n' :: acc) []

/-- A field is clean when it contains no tab, CR or LF. -/
def FieldOK (f : List Char) : Prop :=
  ∀ c ∈ f, c ≠ '\t' ∧ c ≠ '\r' ∧ c ≠ '\n'

instance (f : List Char) : Decidable (FieldOK f) := List.decidableBAll _ f

/-- A tuple is well formed when its fields are clean, its type character is
not itself a separator and not '3' (a type-3 line is attributed to the
request, not to the line), and, when the type classifies as Directory, Text
or Binary, the selector is server-absolute or the line is an external
directory reference (type '1' with empty selector). -/
def TupleWF (t : MenuTuple) : Prop :=
  FieldOK t.display ∧ FieldOK t.selector ∧ FieldOK t.host ∧ FieldOK t.port ∧
  t.typeChar ≠ '\t' ∧ t.typeChar ≠ '\r' ∧ t.typeChar ≠ '\n' ∧ t.typeChar ≠ '3' ∧
  ((t.typeChar = '1' ∨ t.typeChar = '0' ∨ is_binary_file t.typeChar) →
    (t.selector.head? = some '/' ∨ (t.typeChar = '1' ∧ t.selector = [])))

instance (t : MenuTuple) : Decidable (TupleWF t) := by
  unfold TupleWF; infer_instance

/-- A type character the crawler ignores: neither an error line nor a
directory, text or binary item ('i', '.', and everything unlisted). -/
def isIgnoredType (c : Char) : Bool :=
  !(c = '3' || c = '1' || c = '0' || is_binary_file c)

/-- The registry entry a well-formed tuple gives rise to: its selector under
the classified kind, its host/port under EXTERNAL for an external directory
reference, nothing when the type is ignored. -/
def tupleItem (t : MenuTuple) : Option Item :=
  if t.typeChar = '3' then none
  else if t.typeChar = '1' ∨ t.typeChar = '0' ∨ is_binary_file t.typeChar then
    let kind :=
      if t.typeChar = '1' then ItemType.directory
      else if t.typeChar = '0' then ItemType.text
      else ItemType.binary
    if t.selector.head? = some '/' then some ⟨kind, t.selector⟩
    else if kind = ItemType.directory ∧ t.selector = [] then
      some ⟨ItemType.external, t.host ++ '\t' :: t.port⟩
    else none
  else none

/-- The parser's output sequence for a menu: the entries index_line creates
for each CRLF-delimited line, in order, before registry deduplication. -/
def parse_lines (request : List Char) : List (List Char) → Option (List Item)
  | [] => some []
  | l :: ls =>
    match index_line l request, parse_lines request ls with
    | some items, some rest => some (items ++ rest)
    | _, _ => none

/-- Parse a whole menu response: split at CRLF and collect every line's
entries. -/
def parse_menu (menu request : List Char) : Option (List Item) :=
  parse_lines request (splitCRLF menu)

/-- The round-trip law as the spec states it, formalised against the code's
parser: some recovery function returns, for every well-formed synthetic
menu, exactly the non-Ignored tuples from the parser's output.  (The code's
parser keeps only the classified kind and the selector — or host/port for
external references — so no such recovery exists.) -/
def parserRoundTripClaim : Prop :=
  ∃ recover : Option (List Item) → List MenuTuple,
    ∀ ts : List MenuTuple, (∀ t ∈ ts, TupleWF t) →
      recover (parse_menu (assembleMenu ts) (requestLine [])) =
        ts.filter fun t => !isIgnoredType t.typeChar

/-- Two well-formed text-file tuples differing only in the display name:
the parser maps their menus to the same output. -/
def tupDisplayA : MenuTuple := ⟨'0', ['a'], ['/', 'f'], ['h'], ['7', '0']⟩

/-- The partner tuple of tupDisplayA with display name "b". -/
def tupDisplayB : MenuTuple := ⟨'0', ['b'], ['/', 'f'], ['h'], ['7', '0']⟩

/-- A server fixture whose every menu lists the root directory "/" again:
a self-referential (cyclic) site with a single directory. -/
def serverCyclic : List Char → List Char :=
  fun _ => "1self\t/\thost\t70\r\n.\r\n".toList

/-- A server fixture: the root lists one subdirectory /a, and /a answers
with a type-3 error line. -/
def serverWithError : List Char → List Char :=
  fun sel =>
    if sel = "/a".toList then "3error\tmsg\th\t70\r\n".toList
    else if sel = [] then "1d\t/a\th\t70\r\n.\r\n".toList
    else []

/-- Invariant tying evaluate's text-size extrema together: either both
still hold the -1 sentinel, or both hold sizes with smallest ≤ largest. -/
def TextSizeInv (st : EvalStats) : Prop :=
  (st.size_of_smallest_text_file = -1 ∧ st.size_of_largest_text_file = -1) ∨
  (0 ≤ st.size_of_smallest_text_file ∧
    st.size_of_smallest_text_file ≤ st.size_of_largest_text_file)

/-- Invariant tying evaluate's binary-size extrema together. -/
def BinSizeInv (st : EvalStats) : Prop :=
  (st.size_of_smallest_binary_file = -1 ∧ st.size_of_largest_binary_file = -1) ∨
  (0 ≤ st.size_of_smallest_binary_file ∧
    st.size_of_smallest_binary_file ≤ st.size_of_largest_binary_file)

/-! ## Registry lemmas -/

theorem Item.eq_iff (a b : Item) : a = b ↔ a.kind = b.kind ∧ a.record = b.record := by
  cases a; cases b; simp

theorem any_dup_iff_mem (l : List Item) (it : Item) :
    (l.any fun c => decide (c.kind = it.kind ∧ c.record = it.record)) = true ↔ it ∈ l := by
  simp only [List.any_eq_true, decide_eq_true_eq]
  constructor
  · rintro ⟨x, hx, h1, h2⟩
    have hxit : x = it := (Item.eq_iff x it).mpr ⟨h1, h2⟩
    exact hxit ▸ hx
  · intro h
    exact ⟨it, h, rfl, rfl⟩

theorem add_item_eq (reg : List Item) (it : Item) :
    add_item reg it = if it ∈ reg then reg else reg ++ [it] := by
  cases reg with
  | nil => simp [add_item]
  | cons a l =>
    by_cases h : it ∈ a :: l
    · rw [if_pos h]
      simp only [add_item]
      rw [if_pos ((any_dup_iff_mem (a :: l) it).mpr h)]
    · rw [if_neg h]
      simp only [add_item]
      rw [if_neg fun hc => h ((any_dup_iff_mem (a :: l) it).mp hc)]

theorem mem_add_item {x : Item} {reg : List Item} {it : Item} :
    x ∈ add_item reg it ↔ x ∈ reg ∨ x = it := by
  rw [add_item_eq]
  by_cases h : it ∈ reg
  · rw [if_pos h]
    constructor
    · exact fun hx => Or.inl hx
    · rintro (hx | rfl)
      · exact hx
      · exact h
  · rw [if_neg h]
    simp

theorem add_item_of_mem {reg : List Item} {it : Item} (h : it ∈ reg) :
    add_item reg it = reg := by
  rw [add_item_eq, if_pos h]

theorem mem_add_item_self (reg : List Item) (it : Item) : it ∈ add_item reg it := by
  exact mem_add_item.mpr (Or.inr rfl)

theorem add_item_idem (reg : List Item) (it : Item) :
    add_item (add_item reg it) it = add_item reg it :=
  add_item_of_mem (mem_add_item_self reg it)

theorem add_item_nodup {reg : List Item} (h : reg.Nodup) (it : Item) :
    (add_item reg it).Nodup := by
  rw [add_item_eq]
  by_cases hm : it ∈ reg
  · rw [if_pos hm]
    exact h
  · rw [if_neg hm]
    simp [List.nodup_append, h, hm]

theorem add_item_length (reg : List Item) (it : Item) :
    reg.length ≤ (add_item reg it).length := by
  rw [add_item_eq]
  by_cases hm : it ∈ reg
  · rw [if_pos hm]
  · rw [if_neg hm]
    simp

theorem foldl_add_item_nodup :
    ∀ (items : List Item) (reg : List Item), reg.Nodup → (items.foldl add_item reg).Nodup
  | [], _, h => h
  | it :: items, reg, h => foldl_add_item_nodup items (add_item reg it) (add_item_nodup h it)

theorem foldl_add_item_length :
    ∀ (items : List Item) (reg : List Item), reg.length ≤ (items.foldl add_item reg).length
  | [], _ => le_refl _
  | it :: items, reg =>
    le_trans (add_item_length reg it) (foldl_add_item_length items (add_item reg it))

theorem nodup_pairwise_kr {reg : List Item} (h : reg.Nodup) :
    reg.Pairwise fun a b => ¬(a.kind = b.kind ∧ a.record = b.record) := by
  refine h.imp ?_
  intro a b hne hab
  exact hne ((Item.eq_iff a b).mpr hab)

theorem nodup_subset_length {reg U : List Item} (hn : reg.Nodup)
    (hsub : ∀ it ∈ reg, it ∈ U) : reg.length ≤ U.length := by
  calc reg.length = reg.toFinset.card := (List.toFinset_card_of_nodup hn).symm
    _ ≤ U.toFinset.card := Finset.card_le_card fun x hx => by
        simp only [List.mem_toFinset] at hx ⊢
        exact hsub x hx
    _ ≤ U.length := List.toFinset_card_le U

/-! ## Indexing lemmas -/

theorem index_lines_nodup :
    ∀ (ls : List (List Char)) (req : List Char) (reg reg' : List Item),
      index_lines req reg ls = some reg' → reg.Nodup → reg'.Nodup
  | [], _, _, _, h, hn => by
    simp only [index_lines, Option.some.injEq] at h
    exact h ▸ hn
  | l :: ls, req, reg, reg', h, hn => by
    simp only [index_lines] at h
    cases hl : index_line l req with
    | none => rw [hl] at h; cases h
    | some items =>
      rw [hl] at h
      exact index_lines_nodup ls req _ reg' h (foldl_add_item_nodup items reg hn)

theorem index_lines_length :
    ∀ (ls : List (List Char)) (req : List Char) (reg reg' : List Item),
      index_lines req reg ls = some reg' → reg.length ≤ reg'.length
  | [], _, _, _, h => by
    simp only [index_lines, Option.some.injEq] at h
    exact h ▸ le_refl _
  | l :: ls, req, reg, reg', h => by
    simp only [index_lines] at h
    cases hl : index_line l req with
    | none => rw [hl] at h; cases h
    | some items =>
      rw [hl] at h
      exact le_trans (foldl_add_item_length items reg) (index_lines_length ls req _ reg' h)

theorem indexing_nodup {resp req : List Char} {reg reg' : List Item}
    (h : indexing resp req reg = some reg') (hn : reg.Nodup) : reg'.Nodup :=
  index_lines_nodup (splitCRLF resp) req reg reg' h hn

theorem indexing_length {resp req : List Char} {reg reg' : List Item}
    (h : indexing resp req reg = some reg') : reg.length ≤ reg'.length :=
  index_lines_length (splitCRLF resp) req reg reg' h

/-! ## Crawl lemmas -/

theorem crawl_loop_done_nodup (server : List Char → List Char) :
    ∀ (fuel : Nat) (reg : List Item) (i : Nat) (reg' : List Item),
      crawl_loop server fuel reg i = some (CrawlResult.done reg') → reg.Nodup → reg'.Nodup := by
  intro fuel
  induction fuel with
  | zero =>
    intro reg i reg' h
    simp [crawl_loop] at h
  | succ n ih =>
    intro reg i reg' h hn
    rw [crawl_loop] at h
    by_cases hi : i < reg.length
    · rw [dif_pos hi] at h
      simp only at h
      by_cases hdir : (reg.get ⟨i, hi⟩).kind = ItemType.directory
      · rw [if_pos hdir] at h
        cases hidx : indexing (server (reg.get ⟨i, hi⟩).record)
            (requestLine (reg.get ⟨i, hi⟩).record) reg with
        | none => rw [hidx] at h; cases h
        | some reg2 =>
          rw [hidx] at h
          exact ih reg2 (i + 1) reg' h (indexing_nodup hidx hn)
      · rw [if_neg hdir] at h
        exact ih reg (i + 1) reg' h hn
    · rw [dif_neg hi] at h
      cases h
      exact hn

theorem crawl_loop_total (server : List Char → List Char) (U : List Item)
    (hU : ∀ sel reg reg', indexing (server sel) (requestLine sel) reg = some reg' →
          ∀ it ∈ reg', it ∈ U ∨ it ∈ reg) :
    ∀ (fuel : Nat) (reg : List Item) (i : Nat), reg.Nodup → (∀ it ∈ reg, it ∈ U) →
      i ≤ reg.length → U.length + 1 ≤ fuel + i →
      ∃ r, crawl_loop server fuel reg i = some r := by
  intro fuel
  induction fuel with
  | zero =>
    intro reg i hn hsub hi hf
    exfalso
    have hlen : reg.length ≤ U.length := nodup_subset_length hn hsub
    omega
  | succ n ih =>
    intro reg i hn hsub hi hf
    rw [crawl_loop]
    by_cases hlt : i < reg.length
    · rw [dif_pos hlt]
      simp only
      by_cases hdir : (reg.get ⟨i, hlt⟩).kind = ItemType.directory
      · rw [if_pos hdir]
        cases hidx : indexing (server (reg.get ⟨i, hlt⟩).record)
            (requestLine (reg.get ⟨i, hlt⟩).record) reg with
        | none => exact ⟨CrawlResult.crashed, rfl⟩
        | some reg2 =>
          have hn2 : reg2.Nodup := indexing_nodup hidx hn
          have hsub2 : ∀ it ∈ reg2, it ∈ U := fun it hit =>
            (hU _ _ _ hidx it hit).elim id fun hmem => hsub it hmem
          have hlen2 : reg.length ≤ reg2.length := indexing_length hidx
          exact ih reg2 (i + 1) hn2 hsub2 (by omega) (by omega)
      · rw [if_neg hdir]
        exact ih reg (i + 1) hn hsub (by omega) (by omega)
    · rw [dif_neg hlt]
      exact ⟨CrawlResult.done reg, rfl⟩

/-- C2: for every server whose menus only ever mention items from a finite
list U, the crawl reaches a result within U.length + 1 loop iterations even
when menus reference each other cyclically or reference themselves, and in
the final registry the selectors of Directory items are pairwise distinct —
each directory is descended at most once, since the loop visits each
registry position exactly once and deduplication keeps re-discovered
directories out. -/
theorem c2_crawl_terminates (server : List Char → List Char) (U : List Item)
    (hU : ∀ sel reg reg', indexing (server sel) (requestLine sel) reg = some reg' →
          ∀ it ∈ reg', it ∈ U ∨ it ∈ reg) :
    (∃ r, crawl server (U.length + 1) = some r) ∧
    ∀ reg, crawl server (U.length + 1) = some (CrawlResult.done reg) →
      ((reg.filter fun it => decide (it.kind = ItemType.directory)).map Item.record).Nodup := by
  constructor
  · cases hroot : indexing (server []) (requestLine []) [] with
    | none =>
      exact ⟨CrawlResult.crashed, by simp [crawl, hroot]⟩
    | some reg0 =>
      have hn0 : reg0.Nodup := indexing_nodup hroot List.nodup_nil
      have hsub0 : ∀ it ∈ reg0, it ∈ U := fun it hit =>
        (hU [] [] reg0 hroot it hit).elim id (by simp)
      obtain ⟨r, hr⟩ := crawl_loop_total server U hU (U.length + 1) reg0 0 hn0 hsub0
        (Nat.zero_le _) (by omega)
      exact ⟨r, by simp [crawl, hroot]; exact hr⟩
  · intro reg h
    cases hroot : indexing (server []) (requestLine []) [] with
    | none => simp [crawl, hroot] at h
    | some reg0 =>
      rw [crawl, hroot] at h
      have hn : reg.Nodup :=
        crawl_loop_done_nodup server (U.length + 1) reg0 0 reg h
          (indexing_nodup hroot List.nodup_nil)
      refine List.Nodup.map_on ?_ (hn.filter _)
      intro x hx y hy hxy
      have hxk : x.kind = ItemType.directory :=
        of_decide_eq_true (List.mem_filter.mp hx).2
      have hyk : y.kind = ItemType.directory :=
        of_decide_eq_true (List.mem_filter.mp hy).2
      exact (Item.eq_iff x y).mpr ⟨hxk.trans hyk.symm, hxy⟩

/-! ## Analysis-loop lemmas -/

theorem eval_step_snd (meter : List Char → MeterOutcome) (reg : List Item) (c : Item)
    (st : EvalStats) :
    (eval_step meter reg c st).2 = reg ∨
    ∃ x : Item, (x.kind = ItemType.timeout ∨ x.kind = ItemType.tooLarge) ∧
      (eval_step meter reg c st).2 = add_item reg x := by
  cases hk : c.kind <;> simp only [eval_step, hk]
  case directory => exact Or.inl trivial
  case error => exact Or.inl trivial
  case external => exact Or.inl trivial
  case timeout => exact Or.inl trivial
  case tooLarge => exact Or.inl trivial
  case text =>
    cases hm : meter c.record <;> simp only
    case size => exact Or.inl trivial
    case tooLarge => exact Or.inr ⟨⟨ItemType.tooLarge, c.record⟩, Or.inr rfl, rfl⟩
    case timedOut => exact Or.inr ⟨⟨ItemType.timeout, requestLine c.record⟩, Or.inl rfl, rfl⟩
    case recvFailed => exact Or.inl trivial
  case binary =>
    cases hm : meter c.record <;> simp only
    case size => exact Or.inl trivial
    case tooLarge => exact Or.inr ⟨⟨ItemType.tooLarge, c.record⟩, Or.inr rfl, rfl⟩
    case timedOut => exact Or.inr ⟨⟨ItemType.timeout, requestLine c.record⟩, Or.inl rfl, rfl⟩
    case recvFailed => exact Or.inl trivial

theorem eval_step_nodup (meter : List Char → MeterOutcome) {reg : List Item} (c : Item)
    (st : EvalStats) (h : reg.Nodup) : (eval_step meter reg c st).2.Nodup := by
  rcases eval_step_snd meter reg c st with heq | ⟨x, _, heq⟩
  · rw [heq]; exact h
  · rw [heq]; exact add_item_nodup h x

theorem eval_loop_nodup (meter : List Char → MeterOutcome) :
    ∀ (fuel : Nat) (reg : List Item) (i : Nat) (st : EvalStats) (out : EvalStats × List Item),
      eval_loop meter fuel reg i st = some out → reg.Nodup → out.2.Nodup := by
  intro fuel
  induction fuel with
  | zero =>
    intro reg i st out h
    simp [eval_loop] at h
  | succ n ih =>
    intro reg i st out h hn
    rw [eval_loop] at h
    by_cases hi : i < reg.length
    · rw [dif_pos hi] at h
      exact ih _ (i + 1) _ out h (eval_step_nodup meter _ _ hn)
    · rw [dif_neg hi] at h
      cases h
      exact hn

theorem eval_step_text_inv (meter : List Char → MeterOutcome) (reg : List Item) (c : Item)
    (st : EvalStats) (h : TextSizeInv st) : TextSizeInv (eval_step meter reg c st).1 := by
  cases hk : c.kind <;> simp only [eval_step, hk]
  case directory => exact h
  case error => exact h
  case external => exact h
  case timeout => exact h
  case tooLarge => exact h
  case text =>
    cases hm : meter c.record <;> simp only
    case tooLarge => exact h
    case timedOut => exact h
    case recvFailed => exact h
    case size n =>
      have hn0 : (0 : Int) ≤ (n : Int) := Int.natCast_nonneg n
      simp only [TextSizeInv] at h ⊢
      split_ifs <;> (try dsimp only at *) <;> omega
  case binary =>
    cases hm : meter c.record <;> simp only
    case tooLarge => exact h
    case timedOut => exact h
    case recvFailed => exact h
    case size n =>
      simp only [TextSizeInv] at h ⊢
      split_ifs <;> (try dsimp only at *) <;> omega

theorem eval_step_bin_inv (meter : List Char → MeterOutcome) (reg : List Item) (c : Item)
    (st : EvalStats) (h : BinSizeInv st) : BinSizeInv (eval_step meter reg c st).1 := by
  cases hk : c.kind <;> simp only [eval_step, hk]
  case directory => exact h
  case error => exact h
  case external => exact h
  case timeout => exact h
  case tooLarge => exact h
  case text =>
    cases hm : meter c.record <;> simp only
    case tooLarge => exact h
    case timedOut => exact h
    case recvFailed => exact h
    case size n =>
      simp only [BinSizeInv] at h ⊢
      split_ifs <;> (try dsimp only at *) <;> omega
  case binary =>
    cases hm : meter c.record <;> simp only
    case tooLarge => exact h
    case timedOut => exact h
    case recvFailed => exact h
    case size n =>
      have hn0 : (0 : Int) ≤ (n : Int) := Int.natCast_nonneg n
      simp only [BinSizeInv] at h ⊢
      split_ifs <;> (try dsimp only at *) <;> omega

theorem eval_loop_invs (meter : List Char → MeterOutcome) :
    ∀ (fuel : Nat) (reg : List Item) (i : Nat) (st : EvalStats) (out : EvalStats × List Item),
      eval_loop meter fuel reg i st = some out →
      (TextSizeInv st → TextSizeInv out.1) ∧ (BinSizeInv st → BinSizeInv out.1) := by
  intro fuel
  induction fuel with
  | zero =>
    intro reg i st out h
    simp [eval_loop] at h
  | succ n ih =>
    intro reg i st out h
    rw [eval_loop] at h
    by_cases hi : i < reg.length
    · rw [dif_pos hi] at h
      have := ih _ (i + 1) _ out h
      exact ⟨fun ht => this.1 (eval_step_text_inv meter reg _ st ht),
             fun hb => this.2 (eval_step_bin_inv meter reg _ st hb)⟩
    · rw [dif_neg hi] at h
      cases h
      exact ⟨id, id⟩

theorem eval_step_text_count (meter : List Char → MeterOutcome) (reg : List Item) (c : Item)
    (st : EvalStats) :
    (eval_step meter reg c st).1.num_of_text_files =
      st.num_of_text_files + (if c.kind = ItemType.text then 1 else 0) := by
  cases hk : c.kind <;> simp only [eval_step, hk]
  case directory => simp
  case error => simp
  case external => simp
  case timeout => simp
  case tooLarge => simp
  case text =>
    cases hm : meter c.record <;> simp only
    case tooLarge => simp
    case timedOut => simp
    case recvFailed => simp
    case size n => split_ifs <;> simp_all
  case binary =>
    cases hm : meter c.record <;> simp only
    case tooLarge => simp
    case timedOut => simp
    case recvFailed => simp
    case size n => split_ifs <;> simp_all

theorem eval_step_bin_count (meter : List Char → MeterOutcome) (reg : List Item) (c : Item)
    (st : EvalStats) :
    (eval_step meter reg c st).1.num_of_binary_files =
      st.num_of_binary_files + (if c.kind = ItemType.binary then 1 else 0) := by
  cases hk : c.kind <;> simp only [eval_step, hk]
  case directory => simp
  case error => simp
  case external => simp
  case timeout => simp
  case tooLarge => simp
  case text =>
    cases hm : meter c.record <;> simp only
    case tooLarge => simp
    case timedOut => simp
    case recvFailed => simp
    case size n => split_ifs <;> simp_all
  case binary =>
    cases hm : meter c.record <;> simp only
    case tooLarge => simp
    case timedOut => simp
    case recvFailed => simp
    case size n => split_ifs <;> simp_all

theorem eval_step_countP_drop (meter : List Char → MeterOutcome) (reg : List Item) (c : Item)
    (st : EvalStats) (i : Nat) (hi : i + 1 ≤ reg.length) (k : ItemType)
    (hk : k = ItemType.text ∨ k = ItemType.binary) :
    (((eval_step meter reg c st).2).drop (i + 1)).countP (fun x => decide (x.kind = k)) =
      (reg.drop (i + 1)).countP (fun x => decide (x.kind = k)) := by
  rcases eval_step_snd meter reg c st with heq | ⟨x, hx, heq⟩
  · rw [heq]
  · rw [heq, add_item_eq]
    by_cases hm : x ∈ reg
    · rw [if_pos hm]
    · rw [if_neg hm, List.drop_append_of_le_length hi, List.countP_append]
      have hxk : x.kind ≠ k := by
        rcases hx with h1 | h1 <;> rcases hk with h2 | h2 <;> simp [h1, h2]
      simp [hxk]

theorem eval_loop_counts (meter : List Char → MeterOutcome) :
    ∀ (fuel : Nat) (reg : List Item) (i : Nat) (st : EvalStats) (out : EvalStats × List Item),
      eval_loop meter fuel reg i st = some out →
      out.1.num_of_text_files = st.num_of_text_files +
        ((reg.drop i).countP fun x => decide (x.kind = ItemType.text)) ∧
      out.1.num_of_binary_files = st.num_of_binary_files +
        ((reg.drop i).countP fun x => decide (x.kind = ItemType.binary)) := by
  intro fuel
  induction fuel with
  | zero =>
    intro reg i st out h
    simp [eval_loop] at h
  | succ n ih =>
    intro reg i st out h
    rw [eval_loop] at h
    by_cases hi : i < reg.length
    · rw [dif_pos hi] at h
      obtain ⟨iht, ihb⟩ := ih _ (i + 1) _ out h
      have hdropt := eval_step_countP_drop meter reg (reg.get ⟨i, hi⟩) st i hi
        ItemType.text (Or.inl rfl)
      have hdropb := eval_step_countP_drop meter reg (reg.get ⟨i, hi⟩) st i hi
        ItemType.binary (Or.inr rfl)
      rw [hdropt] at iht
      rw [hdropb] at ihb
      rw [eval_step_text_count] at iht
      rw [eval_step_bin_count] at ihb
      have hcons : reg.drop i = reg.get ⟨i, hi⟩ :: reg.drop (i + 1) :=
        List.drop_eq_getElem_cons hi
      rw [hcons, List.countP_cons, List.countP_cons]
      constructor
      · rw [iht]
        by_cases hkind : (reg.get ⟨i, hi⟩).kind = ItemType.text <;> simp [hkind] <;> omega
      · rw [ihb]
        by_cases hkind : (reg.get ⟨i, hi⟩).kind = ItemType.binary <;> simp [hkind] <;> omega
    · rw [dif_neg hi] at h
      cases h
      have hdrop : reg.drop i = [] := List.drop_eq_nil_of_le (by omega)
      simp [hdrop]

theorem crawl_done_nodup {server : List Char → List Char} {fuel : Nat} {reg : List Item}
    (h : crawl server fuel = some (CrawlResult.done reg)) : reg.Nodup := by
  cases hroot : indexing (server []) (requestLine []) [] with
  | none => simp [crawl, hroot] at h
  | some reg0 =>
    rw [crawl, hroot] at h
    exact crawl_loop_done_nodup server fuel reg0 0 reg h (indexing_nodup hroot List.nodup_nil)

theorem add_item_iterate (it : Item) :
    ∀ (n : Nat), 1 ≤ n → ∀ reg, (fun r => add_item r it)^[n] reg = add_item reg it := by
  intro n
  induction n with
  | zero => intro h; omega
  | succ m ih =>
    intro _ reg
    rw [Function.iterate_succ_apply]
    cases Nat.eq_zero_or_pos m with
    | inl h0 => subst h0; simp
    | inr hpos => rw [ih hpos (add_item reg it), add_item_idem]

/-! ## Claims on the registry and the analysis walk -/

/-- C1: in every run, the registry as evaluate's walk leaves it contains no
two items sharing the same (kind, record) — every insertion goes through
add_item, which discards an item whose (kind, record) matches an existing
entry — and inserting the same item n ≥ 1 times has the same effect on any
registry as inserting it once. -/
theorem c1_registry_dedup (server : List Char → List Char)
    (meter : List Char → MeterOutcome) (fuel1 fuel2 : Nat)
    (reg : List Item) (out : EvalStats × List Item)
    (hcrawl : crawl server fuel1 = some (CrawlResult.done reg))
    (heval : eval_loop meter fuel2 reg 0 initStats = some out)
    (reg2 : List Item) (it : Item) (n : Nat) (hn : 1 ≤ n) :
    (out.2.Pairwise fun a b => ¬(a.kind = b.kind ∧ a.record = b.record)) ∧
    (fun r => add_item r it)^[n] reg2 = add_item reg2 it := by
  constructor
  · exact nodup_pairwise_kr
      (eval_loop_nodup meter fuel2 reg 0 initStats out heval (crawl_done_nodup hcrawl))
  · exact add_item_iterate it n hn reg2

theorem c1_registry_dedup_witness :
    (([⟨ItemType.directory, "/a".toList⟩, ⟨ItemType.error, "/a\r\n".toList⟩] :
        List Item).Pairwise fun a b => ¬(a.kind = b.kind ∧ a.record = b.record)) ∧
    (fun r => add_item r (⟨ItemType.text, "/t".toList⟩ : Item))^[2] [] =
      add_item [] ⟨ItemType.text, "/t".toList⟩ :=
  c1_registry_dedup serverWithError (fun _ => MeterOutcome.size 5) 3 3
    [⟨ItemType.directory, "/a".toList⟩, ⟨ItemType.error, "/a\r\n".toList⟩]
    (⟨1, 0, 0, 1, none, -1, -1, -1, -1⟩,
      [⟨ItemType.directory, "/a".toList⟩, ⟨ItemType.error, "/a\r\n".toList⟩])
    (by decide) (by decide) [] ⟨ItemType.text, "/t".toList⟩ 2 (by omega)

/-- C3: when evaluate's walk completes and both the smallest and the
largest text-file sizes are defined (differ from the -1 sentinel), the
smallest is at most the largest, and likewise for binary sizes.  This holds
despite the source's largest-text update comparing the new size against
size_of_largest_binary_file: every value assigned to the largest-text field
is some measured size, and the smallest-text field is the minimum of all
measured sizes. -/
theorem c3_minmax (meter : List Char → MeterOutcome) (fuel : Nat) (reg : List Item)
    (out : EvalStats × List Item)
    (h : eval_loop meter fuel reg 0 initStats = some out) :
    (out.1.size_of_smallest_text_file ≠ -1 → out.1.size_of_largest_text_file ≠ -1 →
      out.1.size_of_smallest_text_file ≤ out.1.size_of_largest_text_file) ∧
    (out.1.size_of_smallest_binary_file ≠ -1 → out.1.size_of_largest_binary_file ≠ -1 →
      out.1.size_of_smallest_binary_file ≤ out.1.size_of_largest_binary_file) := by
  obtain ⟨ht, hb⟩ := eval_loop_invs meter fuel reg 0 initStats out h
  have ht2 := ht (Or.inl ⟨rfl, rfl⟩)
  have hb2 := hb (Or.inl ⟨rfl, rfl⟩)
  constructor
  · intro h1 _
    rcases ht2 with ⟨hs, _⟩ | ⟨_, hle⟩
    · exact absurd hs h1
    · exact hle
  · intro h1 _
    rcases hb2 with ⟨hs, _⟩ | ⟨_, hle⟩
    · exact absurd hs h1
    · exact hle

theorem c3_minmax_witness :
    (⟨0, 2, 0, 0, some "/b".toList, 3, 3, -1, -1⟩ : EvalStats).size_of_smallest_text_file ≤
      (⟨0, 2, 0, 0, some "/b".toList, 3, 3, -1, -1⟩ : EvalStats).size_of_largest_text_file :=
  (c3_minmax (fun r => if r = "/a".toList then MeterOutcome.size 7 else MeterOutcome.size 3) 3
    [⟨ItemType.text, "/a".toList⟩, ⟨ItemType.text, "/b".toList⟩]
    (⟨0, 2, 0, 0, some "/b".toList, 3, 3, -1, -1⟩,
      [⟨ItemType.text, "/a".toList⟩, ⟨ItemType.text, "/b".toList⟩])
    (by decide)).1 (by decide) (by decide)

/-- C10: the per-kind counters of evaluate count every TEXT and BINARY
registry item regardless of its metering outcome — the counter is
incremented before the file is metered — so the final counts equal the
number of TEXT resp. BINARY items in the registry the walk started from
(appended TIMEOUT/TOO_LARGE entries match no case of the switch). -/
theorem c10_counts (meter : List Char → MeterOutcome) (fuel : Nat) (reg : List Item)
    (out : EvalStats × List Item)
    (h : eval_loop meter fuel reg 0 initStats = some out) :
    out.1.num_of_text_files = (reg.countP fun x => decide (x.kind = ItemType.text)) ∧
    out.1.num_of_binary_files = (reg.countP fun x => decide (x.kind = ItemType.binary)) := by
  obtain ⟨ht, hb⟩ := eval_loop_counts meter fuel reg 0 initStats out h
  rw [List.drop_zero] at ht hb
  constructor
  · rw [ht]
    simp [initStats]
  · rw [hb]
    simp [initStats]

theorem c10_counts_witness :
    (⟨0, 1, 1, 0, none, -1, -1, -1, -1⟩ : EvalStats).num_of_text_files =
      (([⟨ItemType.text, "/t".toList⟩, ⟨ItemType.binary, "/b".toList⟩] :
        List Item).countP fun x => decide (x.kind = ItemType.text)) ∧
    (⟨0, 1, 1, 0, none, -1, -1, -1, -1⟩ : EvalStats).num_of_binary_files =
      (([⟨ItemType.text, "/t".toList⟩, ⟨ItemType.binary, "/b".toList⟩] :
        List Item).countP fun x => decide (x.kind = ItemType.binary)) :=
  c10_counts (fun _ => MeterOutcome.timedOut) 5
    [⟨ItemType.text, "/t".toList⟩, ⟨ItemType.binary, "/b".toList⟩]
    (⟨0, 1, 1, 0, none, -1, -1, -1, -1⟩,
      [⟨ItemType.text, "/t".toList⟩, ⟨ItemType.binary, "/b".toList⟩,
       ⟨ItemType.timeout, "/t\r\n".toList⟩, ⟨ItemType.timeout, "/b\r\n".toList⟩])
    (by decide)

theorem c2_crawl_terminates_witness :
    ∃ r, crawl serverCyclic 2 = some r :=
  (c2_crawl_terminates serverCyclic [⟨ItemType.directory, ['/']⟩]
    (by
      intro sel reg reg' h it hit
      have hidx : indexing (serverCyclic sel) (requestLine sel) reg =
          some (add_item reg ⟨ItemType.directory, ['/']⟩) := rfl
      rw [hidx] at h
      injection h with h2
      subst h2
      rcases mem_add_item.mp hit with hmem | rfl
      · exact Or.inr hmem
      · exact Or.inl (List.mem_singleton.mpr rfl))).1

/-! ## Size meter -/

theorem size_drain_eq :
    ∀ (rest : List Nat) (size chunk : Nat),
      size_drain size chunk rest =
        if FILE_LIMIT ≤ size + chunk + rest.sum then (-1 : Int)
        else ((size + chunk + rest.sum : Nat) : Int) := by
  intro rest
  induction rest with
  | nil =>
    intro size chunk
    rw [size_drain]
    simp only [List.sum_nil, Nat.add_zero]
  | cons c r ih =>
    intro size chunk
    rw [size_drain]
    simp only [List.sum_cons]
    by_cases h1 : FILE_LIMIT ≤ size + chunk
    · rw [if_pos h1, if_pos (by omega)]
    · rw [if_neg h1]
      rw [ih (size + chunk) c]
      have hsum : size + chunk + (c + r.sum) = size + chunk + c + r.sum := by omega
      rw [hsum]

/-- C4: for any sequence of received chunks, the size meter returns -1 (the
TooLarge sentinel) exactly when the cumulative byte count reaches
FILE_LIMIT; otherwise it returns the exact total, which lies in
[0, FILE_LIMIT).  In particular a file of FILE_LIMIT - 1 bytes is reported
as 65535 and a file of FILE_LIMIT bytes as TooLarge. -/
theorem c4_size_meter (chunks : List Nat) :
    (evaluate_file_size chunks = -1 ↔ FILE_LIMIT ≤ chunks.sum) ∧
    (chunks.sum < FILE_LIMIT → evaluate_file_size chunks = (chunks.sum : Int)) ∧
    (evaluate_file_size chunks ≠ -1 →
      0 ≤ evaluate_file_size chunks ∧ evaluate_file_size chunks < (FILE_LIMIT : Int)) ∧
    (chunks.sum = FILE_LIMIT - 1 → evaluate_file_size chunks = ((FILE_LIMIT - 1 : Nat) : Int)) ∧
    (chunks.sum = FILE_LIMIT → evaluate_file_size chunks = -1) := by
  have hbig : (1 : Nat) ≤ FILE_LIMIT := by simp [FILE_LIMIT]
  cases chunks with
  | nil =>
    refine ⟨?_, ?_, ?_, ?_, ?_⟩ <;> simp [evaluate_file_size, FILE_LIMIT]
  | cons c rest =>
    have he : evaluate_file_size (c :: rest) =
        if FILE_LIMIT ≤ (c :: rest).sum then (-1 : Int) else (((c :: rest).sum : Nat) : Int) := by
      simp only [evaluate_file_size]
      rw [size_drain_eq]
      simp [List.sum_cons]
    rw [he]
    by_cases h : FILE_LIMIT ≤ (c :: rest).sum
    · rw [if_pos h]
      exact ⟨⟨fun _ => h, fun _ => rfl⟩, fun hc => absurd h (by omega),
        fun hne => absurd rfl hne, fun hc => absurd hc (by omega), fun _ => rfl⟩
    · rw [if_neg h]
      refine ⟨⟨fun heq => absurd heq (by omega), fun hc => absurd hc h⟩,
        fun _ => rfl, fun _ => ⟨by omega, by omega⟩, fun hc => ?_, fun hc => absurd hc (by omega)⟩
      rw [hc]

/-! ## Parser round-trip lemmas -/

theorem splitCRLF_append (l rest : List Char) (hl : ∀ c ∈ l, c ≠ '\r') :
    splitCRLF (l ++ '\r' :: '\n' :: rest) =
      l :: (if rest = [] then [] else splitCRLF rest) := by
  induction l with
  | nil =>
    rw [List.nil_append, splitCRLF, if_pos ⟨rfl, rfl⟩]
  | cons c cs ih =>
    have hc : c ≠ '\r' := hl c (List.mem_cons_self c cs)
    have ih2 := ih fun x hx => hl x (List.mem_cons_of_mem c hx)
    cases cs with
    | nil =>
      rw [List.cons_append, List.nil_append, splitCRLF, if_neg (by simp [hc]),
        splitCRLF, if_pos ⟨rfl, rfl⟩]
    | cons c2 cs2 =>
      simp only [List.cons_append] at ih2 ⊢
      rw [splitCRLF, if_neg (by simp [hc]), ih2]

theorem afterFirstTab_append (d r : List Char) (hd : ∀ c ∈ d, c ≠ '\t') :
    afterFirstTab (d ++ '\t' :: r) = some r := by
  induction d with
  | nil => simp [afterFirstTab]
  | cons c cs ih =>
    have hc : c ≠ '\t' := hd c (List.mem_cons_self c cs)
    simp only [List.cons_append, afterFirstTab, if_neg hc]
    exact ih fun x hx => hd x (List.mem_cons_of_mem c hx)

theorem untilTerminator_append (s r : List Char)
    (hs : ∀ c ∈ s, c ≠ '\t' ∧ c ≠ '\r' ∧ c ≠ '\n') :
    untilTerminator (s ++ '\t' :: r) = (s, some r) := by
  induction s with
  | nil => simp [untilTerminator]
  | cons c cs ih =>
    obtain ⟨h1, h2, h3⟩ := hs c (List.mem_cons_self c cs)
    rw [List.cons_append, untilTerminator, if_neg (by simp [h1, h2, h3])]
    rw [ih fun x hx => hs x (List.mem_cons_of_mem c hx)]

theorem assembleLine_eq (t : MenuTuple) :
    assembleLine t =
      t.typeChar :: (t.display ++ '\t' :: (t.selector ++ '\t' :: (t.host ++ '\t' :: t.port))) := by
  simp [assembleLine]

theorem afterFirstTab_cons (c : Char) (rest : List Char) :
    afterFirstTab (c :: rest) = if c = '\t' then some rest else afterFirstTab rest := rfl

theorem index_line_cons (c : Char) (cs req : List Char) :
    index_line (c :: cs) req =
      (if c = '3' then some [⟨ItemType.error, req⟩]
       else if c = '1' ∨ c = '0' ∨ is_binary_file c then
         match extract_pathname (c :: cs) with
         | none => none
         | some (pathname, rest) =>
           if pathname.head? = some '/' then
             some [⟨if c = '1' then ItemType.directory
                    else if c = '0' then ItemType.text
                    else ItemType.binary, pathname⟩]
           else if (if c = '1' then ItemType.directory
                    else if c = '0' then ItemType.text
                    else ItemType.binary) = ItemType.directory ∧ pathname = [] then
             match rest with
             | none => none
             | some r => some [⟨ItemType.external, r⟩]
           else some []
       else some []) := rfl

theorem index_line_assembled (t : MenuTuple) (req : List Char) (h : TupleWF t) :
    index_line (assembleLine t) req = some (tupleItem t).toList := by
  obtain ⟨hd, hsel, hhost, hport, ht1, ht2, ht3, ht4, hcls⟩ := h
  have hext : extract_pathname
      (t.typeChar :: (t.display ++ '\t' :: (t.selector ++ '\t' :: (t.host ++ '\t' :: t.port)))) =
      some (t.selector, some (t.host ++ '\t' :: t.port)) := by
    have haft : afterFirstTab
        (t.typeChar :: (t.display ++ '\t' :: (t.selector ++ '\t' :: (t.host ++ '\t' :: t.port)))) =
        some (t.selector ++ '\t' :: (t.host ++ '\t' :: t.port)) := by
      rw [afterFirstTab_cons, if_neg ht1]
      exact afterFirstTab_append _ _ fun c hc => (hd c hc).1
    rw [extract_pathname, haft]
    simp only [untilTerminator_append _ _ hsel]
  rw [assembleLine_eq t, index_line_cons, if_neg ht4, tupleItem, if_neg ht4]
  by_cases hcase : t.typeChar = '1' ∨ t.typeChar = '0' ∨ is_binary_file t.typeChar
  · rw [if_pos hcase, if_pos hcase]
    simp only [hext]
    by_cases hsel1 : t.selector.head? = some '/'
    · rw [if_pos hsel1, if_pos hsel1]
      rfl
    · rcases hcls hcase with hsel2 | ⟨htype1, hsel0⟩
      · exact absurd hsel2 hsel1
      · have hkind : (if t.typeChar = '1' then ItemType.directory
            else if t.typeChar = '0' then ItemType.text else ItemType.binary) =
            ItemType.directory := by rw [if_pos htype1]
        rw [if_neg hsel1, if_neg hsel1, if_pos ⟨hkind, hsel0⟩, if_pos ⟨hkind, hsel0⟩]
        rfl
  · rw [if_neg hcase, if_neg hcase]
    rfl

theorem assembleMenu_cons_ne_nil (t : MenuTuple) (rest : List MenuTuple) :
    assembleMenu (t :: rest) ≠ [] := by
  simp [assembleMenu, assembleLine]

theorem assembleLine_no_cr (t : MenuTuple) (h : TupleWF t) :
    ∀ c ∈ assembleLine t, c ≠ '\r' := by
  obtain ⟨hd, hsel, hhost, hport, ht1, ht2, ht3, ht4, hcls⟩ := h
  intro c hc
  simp only [assembleLine, List.mem_cons, List.mem_append, or_assoc] at hc
  rcases hc with rfl | hc | rfl | hc | rfl | hc | rfl | hc
  · exact ht2
  · exact (hd c hc).2.1
  · simp
  · exact (hsel c hc).2.1
  · simp
  · exact (hhost c hc).2.1
  · simp
  · exact (hport c hc).2.1

/-- C5 (amended): parsing a synthetic menu assembled from well-formed
tuples yields exactly, in order and skipping Ignored types, the registry
entry each tuple projects to — the classified kind with the selector, or an
EXTERNAL entry with the host/port tail; the display name (and host/port of
non-external entries) is discarded by the parser. -/
theorem c5_parse_round_trip (ts : List MenuTuple) (req : List Char)
    (h : ∀ t ∈ ts, TupleWF t) :
    parse_menu (assembleMenu ts) req = some (ts.filterMap tupleItem) := by
  induction ts with
  | nil => rfl
  | cons t rest ih =>
    have hwt : TupleWF t := h t (List.mem_cons_self t rest)
    have hnoCR := assembleLine_no_cr t hwt
    have hmenu : assembleMenu (t :: rest) =
        assembleLine t ++ '\r' :: '\n' :: assembleMenu rest := rfl
    rw [parse_menu, hmenu, splitCRLF_append _ _ hnoCR]
    by_cases hrest : assembleMenu rest = []
    · have hre : rest = [] := by
        cases rest with
        | nil => rfl
        | cons a b => exact absurd hrest (assembleMenu_cons_ne_nil a b)
      subst hre
      rw [if_pos hrest, parse_lines, index_line_assembled t req hwt]
      cases htup : tupleItem t <;> simp [parse_lines, List.filterMap_cons, htup]
    · rw [if_neg hrest, parse_lines, index_line_assembled t req hwt]
      have ih2 := ih fun x hx => h x (List.mem_cons_of_mem t hx)
      rw [parse_menu] at ih2
      rw [ih2]
      cases htup : tupleItem t <;> simp [List.filterMap_cons, htup]

/-- Counterexample to C5 as stated: two well-formed, non-Ignored tuple
lists that differ (in the display name) parse to the same output, so no
recovery of "the same tuples" from the parser's output exists: the claim's
round-trip law fails for the display-name component. -/
theorem c5_counterexample :
    (tupDisplayA ≠ tupDisplayB ∧ TupleWF tupDisplayA ∧ TupleWF tupDisplayB ∧
      isIgnoredType tupDisplayA.typeChar = false ∧
      isIgnoredType tupDisplayB.typeChar = false) ∧
    ¬parserRoundTripClaim := by
  constructor
  · exact ⟨by decide, by decide, by decide, by decide, by decide⟩
  · rintro ⟨recover, hrec⟩
    have hA := hrec [tupDisplayA] (by decide)
    have hB := hrec [tupDisplayB] (by decide)
    have heq : parse_menu (assembleMenu [tupDisplayA]) (requestLine []) =
        parse_menu (assembleMenu [tupDisplayB]) (requestLine []) := by decide
    rw [heq] at hA
    have hfil : ([tupDisplayA].filter fun t => !isIgnoredType t.typeChar) =
        ([tupDisplayB].filter fun t => !isIgnoredType t.typeChar) := hA ▸ hB
    exact absurd hfil (by decide)

theorem c5_parse_round_trip_witness :
    parse_menu (assembleMenu [tupDisplayA]) (requestLine []) =
      some ([tupDisplayA].filterMap tupleItem) :=
  c5_parse_round_trip [tupDisplayA] (requestLine []) (by decide)

/-! ## Invalid references, malformed lines, the smallest-text fetch and the
prober -/

/-- Counterexample to C6 as stated: the ERROR entry for a type-3 line
carries the request line — the selector with CRLF appended — not the bare
selector of the request. -/
theorem c6_counterexample :
    index_line ('3' :: "err".toList) (requestLine "/bad".toList) =
      some [⟨ItemType.error, requestLine "/bad".toList⟩] ∧
    requestLine "/bad".toList ≠ "/bad".toList := by
  exact ⟨by decide, by decide⟩

/-- C6 (amended): a response line whose type character is '3' yields an
ERROR entry recording the request line that produced the response — the
request's selector with CRLF appended, as gopher_connect passes new_request
to the handler — independent of the line's fields; re-inserting the entry
for the same request leaves the registry unchanged, so repeated type-3
lines for one request selector collapse to a single entry. -/
theorem c6_invalidref_request (rest sel : List Char) (reg : List Item) :
    index_line ('3' :: rest) (requestLine sel) =
      some [⟨ItemType.error, requestLine sel⟩] ∧
    add_item (add_item reg ⟨ItemType.error, requestLine sel⟩)
        ⟨ItemType.error, requestLine sel⟩ =
      add_item reg ⟨ItemType.error, requestLine sel⟩ := by
  constructor
  · simp [index_line_cons]
  · exact add_item_idem reg ⟨ItemType.error, requestLine sel⟩

/-- C7: a menu line whose type maps to Directory, Text or Binary but which
contains no tab character is not silently skipped: extract_pathname leaves
start as NULL and its second loop dereferences it (the `none` result),
contradicting the source's own doc comment, which promises NULL for a
missing pathname. -/
theorem c7_no_tab_crash :
    index_line "0hello".toList (requestLine "/".toList) = none ∧
    extract_pathname "0hello".toList = none := by
  exact ⟨by decide, by decide⟩

/-- C8: with no TEXT item in the registry, evaluate's walk leaves
smallest_text_file as NULL, yet evaluate still calls
gopher_connect(print_response, smallest_text_file), whose strlen(request)
dereferences the NULL pointer — the fetch is not guarded by the existence
of a smallest text file. -/
theorem c8_print_smallest_crash :
    eval_loop (fun _ => MeterOutcome.size 0) 1 [] 0 initStats = some (initStats, []) ∧
    initStats.smallest_text_file = none ∧
    print_smallest_request initStats.smallest_text_file = none := by
  exact ⟨by decide, rfl, rfl⟩

/-- C9: for an ExternalRef whose hostname fails DNS resolution the prober
does not report "down" and continue — the memcpy guard tests the global
primary `server` instead of `ext_server`, so the NULL `ext_server` is
dereferenced (the `none` result); an ExternalRef whose TCP connect misses
the deadline is reported down. -/
theorem c9_dns_crash :
    test_external_servers
      (fun h => if h = "example.com".toList then some 1000 else none) 1 70
      (fun _ _ => false)
      ⟨ItemType.external, "nowhere.invalid\t70".toList⟩ = none ∧
    test_external_servers
      (fun h => if h = "example.com".toList then some 1000 else none) 1 70
      (fun _ _ => false)
      ⟨ItemType.external, "example.com\t70".toList⟩ = some ProbeResult.down := by
  exact ⟨by decide, by decide⟩

end Gopher
